import Mathlib

/-!
Shallow embedding of `annotate.go` (PimpMyGlow): a line-oriented DSL compiler
that parses timed light-show commands into a nested command tree and runs the
semantic passes (club specialization, color resolution, label resolution,
time resolution, duration annotation).

Fatal conditions (the Go code calls `os.Exit(1)` or panics) are modelled by
an `Except Err` result; each `Err` constructor corresponds to one distinct
`Fprintf`/`panic` site of the source and carries exactly the data the message
interpolates (in particular the reported line number).
-/

/-- One constructor per fatal-exit or panic site in `annotate.go`.
`errInLine` is the `parseNumber` message "Error in line %d"; `zeroCount` is
the `parseCount` message "Error in line %d: count cannot be zero";
`eWithoutL` is the `parseProgram` message "Error in line %d: E without L";
`indexPanic` stands for a
Go runtime index-out-of-range panic; `regexNoMatch` stands for the nil-map
dereference when the color regular expression does not match; `fuelExhausted`
is an artifact of the fuel-based parser model and is never produced when the
fuel bound of `parseProgram` is used. -/
inductive Err : Type where
  | errInLine (lineNo : Nat)
  | zeroCount (lineNo : Nat)
  | unterminatedLoop
  | eWithoutL (lineNo : Nat)
  | panicParseE
  | timeNotSupported (lineNo : Nat)
  | unexpectedSubCommands (op : String) (lineNo : Nat)
  | cannotGoBack (time : Int) (lineNo : Nat)
  | colorNotDefined (name : String) (lineNo : Nat)
  | colorRedefined (name : String)
  | defineNotAllowed (lineNo : Nat)
  | labelNotDefined (name : String)
  | indexPanic (lineNo : Nat)
  | regexNoMatch (lineNo : Nat)
  | fuelExhausted
deriving DecidableEq, Repr

/-- Go struct `command`: verbatim source line, closing line of a block
(zero value `""` for leaves), 0-based line number, comma-split fields, and
nested sub-commands. -/
inductive Command : Type where
  | mk (line : String) (endLine : String) (lineNo : Nat)
      (fields : List String) (subCommands : List Command) : Command

def Command.line : Command → String
  | .mk l _ _ _ _ => l

def Command.endLine : Command → String
  | .mk _ e _ _ _ => e

def Command.lineNo : Command → Nat
  | .mk _ _ n _ _ => n

def Command.fields : Command → List String
  | .mk _ _ _ f _ => f

def Command.subCommands : Command → List Command
  | .mk _ _ _ _ s => s

/-- Go `strconv.Atoi`: optional sign followed by at least one decimal digit,
nothing else.  (Machine-int range errors are not modelled; no claim involves
values near 2^63.) -/
def digitsToNatAux : List Char → Nat → Option Nat
  | [], acc => some acc
  | c :: cs, acc =>
    if c.isDigit then digitsToNatAux cs (acc * 10 + (c.toNat - 48)) else none

def digitsToNat : List Char → Option Nat
  | [] => none
  | cs => digitsToNatAux cs 0

def atoi (s : String) : Option Int :=
  match s.data with
  | '-' :: rest => (digitsToNat rest).map (fun n => -(n : Int))
  | '+' :: rest => (digitsToNat rest).map (fun n => (n : Int))
  | cs => (digitsToNat cs).map (fun n => (n : Int))

/-- Go `parseNumber`: `strconv.Atoi`, exiting with "Error in line %d" on
failure. -/
def parseNumber (f : String) (lineNo : Nat) : Except Err Int :=
  match atoi f with
  | some n => .ok n
  | none => .error (.errInLine lineNo)

/-- Go `parseCount`: `parseNumber`, additionally fatal when the value is 0
("count cannot be zero"). -/
def parseCount (f : String) (lineNo : Nat) : Except Err Int :=
  match parseNumber f lineNo with
  | .error e => .error e
  | .ok n => if n = 0 then .error (.zeroCount lineNo) else .ok n

/-- Cutset of Go `strings.Trim(line, " \t")`. -/
def isCutChar (c : Char) : Bool := c = ' ' || c = '\t'

/-- Go `strings.Trim` with cutset `" \t"`: drop cutset characters from both
ends. -/
def trimCut (cs : List Char) : List Char :=
  ((cs.dropWhile isCutChar).reverse.dropWhile isCutChar).reverse

/-- Go `strings.Split(line, ",")`: split at every comma; the empty string
yields `[""]`. -/
def splitComma : List Char → List (List Char)
  | [] => [[]]
  | c :: rest =>
    if c = ',' then [] :: splitComma rest
    else
      match splitComma rest with
      | [] => [[c]]
      | g :: gs => (c :: g) :: gs

/-- Comment stripping in Go `splitLine`: everything from the first `;` on is
discarded. -/
def stripComment (s : String) : String :=
  if s.data.contains ';' then ⟨s.data.takeWhile (fun c => c ≠ ';')⟩ else s

/-- Go `splitLine`: strip the comment, trim the line, split on commas, trim
each field. -/
def splitLine (lineVerbatim : String) : List String :=
  (splitComma (trimCut (stripComment lineVerbatim).data)).map (fun g => ⟨trimCut g⟩)

/-- Go `isBlockCommand`. -/
def isBlockCommand (c : String) : Bool := c = "L" || c = "CLUBS"

/-- Go `(*command).hasSubCommands`: decided by the opcode, not by the actual
child list. -/
def Command.hasSubCommands (c : Command) : Bool := isBlockCommand (c.fields.headD "")

mutual

/-- Go `parseLines`, with an explicit fuel argument standing for the
(unbounded) Go recursion depth: collect commands until a line whose first
field is `E` or the input ends, returning the commands and the next unread
line index. -/
def parseLinesF : Nat → List String → Nat → Except Err (List Command × Nat)
  | 0, _, _ => .error .fuelExhausted
  | fuel + 1, lines, lineNo =>
    if h : lineNo < lines.length then
      if (splitLine (lines.get ⟨lineNo, h⟩)).headD "" = "E" then .ok ([], lineNo)
      else
        match parseCommandF fuel lines lineNo (splitLine (lines.get ⟨lineNo, h⟩)) with
        | .error e => .error e
        | .ok (c, newLineNo) =>
          match parseLinesF fuel lines newLineNo with
          | .error e => .error e
          | .ok (cs, endNo) => .ok (c :: cs, endNo)
    else .ok ([], lineNo)

/-- Go `parseCommand`: build a command from the line at `lineNo`; a block
opcode recurses for the children and takes the closing `E` line verbatim,
failing with "unterminated loop" when the input ends first. -/
def parseCommandF : Nat → List String → Nat → List String → Except Err (Command × Nat)
  | 0, _, _, _ => .error .fuelExhausted
  | fuel + 1, lines, lineNo, fields =>
    if h : lineNo < lines.length then
      if fields.headD "" = "E" then .error .panicParseE
      else if isBlockCommand (fields.headD "") then
        match parseLinesF fuel lines (lineNo + 1) with
        | .error e => .error e
        | .ok (subCommands, newLineNo) =>
          if h2 : newLineNo < lines.length then
            .ok (Command.mk (lines.get ⟨lineNo, h⟩) (lines.get ⟨newLineNo, h2⟩)
                  lineNo fields subCommands, newLineNo + 1)
          else .error .unterminatedLoop
      else .ok (Command.mk (lines.get ⟨lineNo, h⟩) "" lineNo fields [], lineNo + 1)
    else .error (.indexPanic lineNo)

end

/-- Go `parseProgram`: parse all lines from index 0; if unread lines remain,
the stopping line was a stray `E` and the error names its (0-based) index.
The fuel `2 * lines.length + 2` exceeds the depth of any chain of recursive
calls, each of which either consumes a line or terminates immediately. -/
def parseProgram (lines : List String) : Except Err (List Command) :=
  match parseLinesF (2 * lines.length + 2) lines 0 with
  | .error e => .error e
  | .ok (commands, lineNo) =>
    if lineNo < lines.length then .error (.eWithoutL lineNo)
    else .ok commands

mutual

/-- Go `(*command).duration`: `D` and `RAMP` read their count field through
`parseCount` (so a 0 there is fatal); `L` multiplies the summed child
durations by its count; `TIME` is fatal; any other opcode is 0 unless
`hasSubCommands` reports a block opcode, which panics. -/
def Command.duration : Command → Except Err Int
  | Command.mk _l _e n f s =>
    if f.headD "" = "D" then
      match f.get? 1 with
      | some x => parseCount x n
      | none => .error (.indexPanic n)
    else if f.headD "" = "RAMP" then
      match f.get? 4 with
      | some x => parseCount x n
      | none => .error (.indexPanic n)
    else if f.headD "" = "L" then
      match f.get? 1 with
      | none => .error (.indexPanic n)
      | some x =>
        match parseCount x n with
        | .error e => .error e
        | .ok count =>
          match durationList s with
          | .error e => .error e
          | .ok d => .ok (d * count)
    else if f.headD "" = "TIME" then .error (.timeNotSupported n)
    else if isBlockCommand (f.headD "") then .error (.unexpectedSubCommands (f.headD "") n)
    else .ok 0

/-- Sum of `Command.duration` over a list, left to right, stopping at the
first error (the Go loop accumulates `duration += sc.duration()`). -/
def durationList : List Command → Except Err Int
  | [] => .ok 0
  | c :: cs =>
    match Command.duration c with
    | .error e => .error e
    | .ok d =>
      match durationList cs with
      | .error e => .error e
      | .ok rest => .ok (d + rest)

end

mutual

/-- Go `(*command).print`: the verbatim line, then (for block opcodes) the
printed children followed by the closing line. -/
def Command.print : Command → List String
  | Command.mk l e _ f s =>
    if isBlockCommand (f.headD "") then l :: (printProgram s ++ [e]) else [l]

/-- Go `(program).print`. -/
def printProgram : List Command → List String
  | [] => []
  | c :: cs => Command.print c ++ printProgram cs

end

/-- Go `(program).annotateTimes` loop body, with the running cumulative time
as an argument: print each command and, when its duration is positive, a
`    ; time <cumulative>` comment line after it. -/
def annotateTimesAux : List Command → Int → Except Err (List String)
  | [], _ => .ok []
  | c :: cs, time =>
    match Command.duration c with
    | .error e => .error e
    | .ok d =>
      if d > 0 then
        match annotateTimesAux cs (time + d) with
        | .error e => .error e
        | .ok rest => .ok (Command.print c ++ ("    ; time " ++ toString (time + d)) :: rest)
      else
        match annotateTimesAux cs time with
        | .error e => .error e
        | .ok rest => .ok (Command.print c ++ rest)

/-- Go `(program).annotateTimes`: cumulative time starts at 0. -/
def annotateTimes (p : List Command) : Except Err (List String) :=
  annotateTimesAux p 0

/-- The scan over a `CLUBS` id list in Go `specializeForClub`: parse each id
with `parseCount` (fatal on a non-number or on 0) until one equals the
target club. -/
def findClub : List String → Nat → Int → Except Err Bool
  | [], _, _ => .ok false
  | x :: xs, n, club =>
    match parseCount x n with
    | .error e => .error e
    | .ok v => if v = club then .ok true else findClub xs n club

/-- Go `(program).specializeForClub`: a `CLUBS` node whose id list contains
the club is replaced by its recursively specialized children, spliced in
place; a `CLUBS` node without the club is dropped with all its children;
other block opcodes get their children specialized; everything else passes
through. -/
def specializeForClub : List Command → Int → Except Err (List Command)
  | [], _ => .ok []
  | Command.mk l e n f s :: cs, club =>
    if f.headD "" = "CLUBS" then
      match findClub (f.drop 1) n club with
      | .error err => .error err
      | .ok found =>
        if found then
          match specializeForClub s club with
          | .error err => .error err
          | .ok s2 =>
            match specializeForClub cs club with
            | .error err => .error err
            | .ok rest => .ok (s2 ++ rest)
        else specializeForClub cs club
    else
      if isBlockCommand (f.headD "") then
        match specializeForClub s club with
        | .error err => .error err
        | .ok s2 =>
          match specializeForClub cs club with
          | .error err => .error err
          | .ok rest => .ok (Command.mk l e n f s2 :: rest)
      else
        match specializeForClub cs club with
        | .error err => .error err
        | .ok rest => .ok (Command.mk l e n f s :: rest)

/-- Go `(program).resolveTime` loop, with the running absolute time as an
argument: the target of a `TIME` command is read through `parseCount`; going
back in time is fatal; an exactly-reached target is dropped; a later target
becomes a synthesized `D,<target-time>` command (line text joined with
commas, no closing line, the number of the `TIME` line); any other command passes
through and advances the clock by its duration. -/
def resolveTimeAux : List Command → Int → Except Err (List Command)
  | [], _ => .ok []
  | c :: cs, time =>
    if c.fields.headD "" = "TIME" then
      match c.fields.get? 1 with
      | none => .error (.indexPanic c.lineNo)
      | some x =>
        match parseCount x c.lineNo with
        | .error err => .error err
        | .ok target =>
          if target < time then .error (.cannotGoBack time c.lineNo)
          else if target = time then resolveTimeAux cs time
          else
            match resolveTimeAux cs target with
            | .error err => .error err
            | .ok rest =>
              .ok (Command.mk (String.intercalate "," ["D", toString (target - time)]) ""
                    c.lineNo ["D", toString (target - time)] [] :: rest)
    else
      match Command.duration c with
      | .error err => .error err
      | .ok d =>
        match resolveTimeAux cs (time + d) with
        | .error err => .error err
        | .ok rest => .ok (c :: rest)

/-- Go `(program).resolveTime`: the absolute-time counter starts at 0. -/
def resolveTime (p : List Command) : Except Err (List Command) :=
  resolveTimeAux p 0

/-- Go struct `color`. -/
structure Color : Type where
  r : Int
  g : Int
  b : Int
deriving DecidableEq, Repr

/-- First-match association-list lookup, modelling a Go map in which every
key is inserted at most once. -/
def lookupStr {α : Type} : List (String × α) → String → Option α
  | [], _ => none
  | (k, v) :: rest, key => if k = key then some v else lookupStr rest key

/-- Whitespace class of Go regexp `\s`. -/
def isSpaceGo (c : Char) : Bool :=
  c = ' ' || c = '\t' || c = '\n' || c = '\x0c' || c = '\r'

/-- Matching of the Go regular expression `^([^%]+)(\s+(\d+)%)?$` against a
color description: either the whole string is a nonempty name without `%`
(no percent group), or it ends in `%` preceded by a nonempty digit run, one
or more whitespace characters, and a nonempty `%`-free name; greedy matching
of `([^%]+)` puts all but one of those whitespace characters into the name.
Returns the name and the digit text of the percent group, or `none` when
the expression does not match (in Go, `FindStringSubmatch` returns nil and
indexing it panics). -/
def parseColorDesc (s : String) : Option (String × Option String) :=
  match s.data.reverse with
  | '%' :: rest =>
    let ds := rest.takeWhile Char.isDigit
    (match rest.drop ds.length with
     | w :: pre =>
       if ds ≠ [] && isSpaceGo w && pre ≠ [] && !pre.contains '%' then
         some (⟨pre.reverse⟩, some ⟨ds.reverse⟩)
       else none
     | [] => none)
  | _ =>
    if s.data ≠ [] && !s.data.contains '%' then some (s, none) else none

/-- MODEL DEVIATION, flagged: the source computes
`int(float64(channel) * (float64(percent) / 100.0))` in IEEE-754 double
arithmetic.  Double rounding is not faithfully representable in this
embedding (Lean `Float` cannot be evaluated by the kernel), so the scaling
is modelled as exact integer truncation toward zero, which coincides with
the source for most inputs but not all (for channel 100 and percent 29 the
double arithmetic yields 28, the exact truncation 29).  No claim is settled
through this definition. -/
def scaleChannel (channel : Int) (percent : Int) : Int :=
  Int.tdiv (channel * percent) 100

/-- Go `resolveColor`: split the description with the color regular
expression, look the base name up (fatal when undefined), and apply the
percent scaling when the percent group matched; returns the three channels
as decimal strings. -/
def resolveColor (colors : List (String × Color)) (description : String) (lineNo : Nat) :
    Except Err (List String) :=
  match parseColorDesc description with
  | none => .error (.regexNoMatch lineNo)
  | some (name, percent) =>
    match lookupStr colors name with
    | none => .error (.colorNotDefined name lineNo)
    | some c =>
      match percent with
      | none => .ok [toString c.r, toString c.g, toString c.b]
      | some pstr =>
        match parseNumber pstr lineNo with
        | .error e => .error e
        | .ok p =>
          .ok [toString (scaleChannel c.r p), toString (scaleChannel c.g p),
               toString (scaleChannel c.b p)]

/-- Go `resolveColorInCommands`: `COLOR` definitions are only allowed when
`allowDefine` holds (top level), must not redefine a name, take either a
single color-expression field (3 fields total) or a numeric triple (the Go
slice `fields[2:5]`, an index panic when fewer than 5 fields are present),
and produce no output command; 2-field `C` and 3-field `RAMP` have their
color expression replaced by the resolved numeric triple and their line
re-joined with commas; block opcodes recurse with `allowDefine` false;
everything else passes through.  The color namespace is threaded as a
result (the Go code mutates a shared map, which nested calls can never
extend because defining is fatal there). -/
def resolveColorInCommands :
    List Command → List (String × Color) → Bool →
      Except Err (List Command × List (String × Color))
  | [], colors, _ => .ok ([], colors)
  | Command.mk l e n f s :: cs, colors, allowDefine =>
    if f.headD "" = "COLOR" then
      if !allowDefine then .error (.defineNotAllowed n)
      else
        match f.get? 1 with
        | none => .error (.indexPanic n)
        | some name =>
          match lookupStr colors name with
          | some _ => .error (.colorRedefined name)
          | none =>
            match
              ((if f.length = 3 then
                  match f.get? 2 with
                  | none => .error (.indexPanic n)
                  | some expr => resolveColor colors expr n
                else if 5 ≤ f.length then .ok ((f.drop 2).take 3)
                else .error (.indexPanic n)) : Except Err (List String)) with
            | .error err => .error err
            | .ok colorFields =>
              match colorFields with
              | [rs, gs, bs] =>
                (match parseNumber rs n with
                 | .error err => .error err
                 | .ok rv =>
                   match parseNumber gs n with
                   | .error err => .error err
                   | .ok gv =>
                     match parseNumber bs n with
                     | .error err => .error err
                     | .ok bv =>
                       resolveColorInCommands cs ((name, ⟨rv, gv, bv⟩) :: colors) allowDefine)
              | _ => .error (.indexPanic n)
    else if f.headD "" = "C" then
      if f.length = 2 then
        match f.get? 1 with
        | none => .error (.indexPanic n)
        | some expr =>
          match resolveColor colors expr n with
          | .error err => .error err
          | .ok clr =>
            match clr with
            | [cr, cg, cb] =>
              (match resolveColorInCommands cs colors allowDefine with
               | .error err => .error err
               | .ok (rest, colors2) =>
                 .ok (Command.mk (String.intercalate "," ["C", cr, cg, cb]) e n
                        ["C", cr, cg, cb] s :: rest, colors2))
            | _ => .error (.indexPanic n)
      else
        match resolveColorInCommands cs colors allowDefine with
        | .error err => .error err
        | .ok (rest, colors2) => .ok (Command.mk l e n f s :: rest, colors2)
    else if f.headD "" = "RAMP" then
      if f.length = 3 then
        match f.get? 1, f.get? 2 with
        | some expr, some cnt =>
          (match resolveColor colors expr n with
           | .error err => .error err
           | .ok clr =>
             match clr with
             | [cr, cg, cb] =>
               (match resolveColorInCommands cs colors allowDefine with
                | .error err => .error err
                | .ok (rest, colors2) =>
                  .ok (Command.mk (String.intercalate "," ["RAMP", cr, cg, cb, cnt]) e n
                         ["RAMP", cr, cg, cb, cnt] s :: rest, colors2))
             | _ => .error (.indexPanic n))
        | _, _ => .error (.indexPanic n)
      else
        match resolveColorInCommands cs colors allowDefine with
        | .error err => .error err
        | .ok (rest, colors2) => .ok (Command.mk l e n f s :: rest, colors2)
    else
      if isBlockCommand (f.headD "") then
        match resolveColorInCommands s colors false with
        | .error err => .error err
        | .ok (s2, _) =>
          match resolveColorInCommands cs colors allowDefine with
          | .error err => .error err
          | .ok (rest, colors2) => .ok (Command.mk l e n f s2 :: rest, colors2)
      else
        match resolveColorInCommands cs colors allowDefine with
        | .error err => .error err
        | .ok (rest, colors2) => .ok (Command.mk l e n f s :: rest, colors2)

/-- Go `(program).resolveColor`: start with an empty namespace, defining
allowed at the top level; only the transformed program is returned. -/
def programResolveColor (p : List Command) : Except Err (List Command) :=
  match resolveColorInCommands p [] true with
  | .error err => .error err
  | .ok (cs, _) => .ok cs

/-- Go struct `label` (field `end` renamed, a Lean keyword). -/
structure Label : Type where
  start : Int
  stop : Int
deriving DecidableEq, Repr

/-- Go regexp `^\d+$`: a nonempty all-digit string. -/
def allDigits (s : String) : Bool :=
  s.data ≠ [] && s.data.all Char.isDigit

/-- Go `(program).resolveLabels`: a `TIME` command whose argument is not
purely numeric is rewritten to `TIME,<start>` from the label map (fatal
when the label is undefined, with no line number in the message); numeric
`TIME` arguments and all other commands pass through, block children being
resolved recursively. -/
def resolveLabels : List Command → List (String × Label) → Except Err (List Command)
  | [], _ => .ok []
  | Command.mk l e n f s :: cs, labels =>
    if f.headD "" = "TIME" then
      match f.get? 1 with
      | none => .error (.indexPanic n)
      | some arg =>
        if allDigits arg then
          match resolveLabels cs labels with
          | .error err => .error err
          | .ok rest => .ok (Command.mk l e n f s :: rest)
        else
          match lookupStr labels arg with
          | none => .error (.labelNotDefined arg)
          | some lab =>
            match resolveLabels cs labels with
            | .error err => .error err
            | .ok rest =>
              .ok (Command.mk (String.intercalate "," ["TIME", toString lab.start]) e n
                     ["TIME", toString lab.start] s :: rest)
    else
      if isBlockCommand (f.headD "") then
        match resolveLabels s labels with
        | .error err => .error err
        | .ok s2 =>
          match resolveLabels cs labels with
          | .error err => .error err
          | .ok rest => .ok (Command.mk l e n f s2 :: rest)
      else
        match resolveLabels cs labels with
        | .error err => .error err
        | .ok rest => .ok (Command.mk l e n f s :: rest)

/-- No command in the list (at any nesting depth) has opcode `CLUBS`. -/
def clubsFreeL : List Command → Bool
  | [] => true
  | Command.mk _ _ _ f s :: cs =>
    (f.headD "" != "CLUBS") && clubsFreeL s && clubsFreeL cs

/-- A `TIME` command as the parser would build it from the line `TIME,<s>`. -/
def mkTimeCmd (s : String) (n : Nat) : Command :=
  Command.mk ("TIME," ++ s) "" n ["TIME", s] []

/-- The delay command `resolveTime` synthesizes for a jump of `d` units,
carrying the line number of the triggering `TIME` line. -/
def delayCmd (d : Int) (n : Nat) : Command :=
  Command.mk (String.intercalate "," ["D", toString d]) "" n ["D", toString d] []


/-- C2 counterexample: the claim says the Duration Evaluator returns `n` for
`D,n` for every integer `n` these forms allow, including `n = 0`; but the
code reads the field through `parseCount`, so `D,0` is fatal
("count cannot be zero"), not `0`. -/
theorem c2_counterexample :
    Command.duration (Command.mk "D,0" "" 3 ["D", "0"] []) = .error (.zeroCount 3) ∧
    Command.duration (Command.mk "D,0" "" 3 ["D", "0"] []) ≠ .ok 0 := by
  refine ⟨rfl, ?_⟩
  intro h
  rw [show Command.duration (Command.mk "D,0" "" 3 ["D", "0"] [])
        = .error (.zeroCount 3) from rfl] at h
  exact Except.noConfusion h

/-- C2 (corrected): for every command `D,n` the Duration Evaluator returns
`n`, and for a five-field `RAMP,r,g,b,n` it returns its last field `n`, for
every nonzero integer `n`; a zero count field is fatal with the
count-cannot-be-zero error naming the stored line number of the command. -/
theorem c2_duration_amended (line eLine a b c nstr : String) (lineNo : Nat) (n : Int)
    (hp : atoi nstr = some n) :
    (n ≠ 0 → Command.duration (Command.mk line eLine lineNo ["D", nstr] []) = .ok n) ∧
    (n = 0 → Command.duration (Command.mk line eLine lineNo ["D", nstr] [])
        = .error (.zeroCount lineNo)) ∧
    (n ≠ 0 → Command.duration (Command.mk line eLine lineNo ["RAMP", a, b, c, nstr] [])
        = .ok n) ∧
    (n = 0 → Command.duration (Command.mk line eLine lineNo ["RAMP", a, b, c, nstr] [])
        = .error (.zeroCount lineNo)) := by
  refine ⟨?_, ?_, ?_, ?_⟩ <;> intro h <;>
    simp [Command.duration, parseCount, parseNumber, hp, h]

/-- C2 witness: concrete instances of the amended statement. -/
theorem c2_witness :
    Command.duration (Command.mk "D,7" "" 0 ["D", "7"] []) = .ok 7 ∧
    Command.duration (Command.mk "D,0" "" 1 ["D", "0"] []) = .error (.zeroCount 1) ∧
    Command.duration (Command.mk "RAMP,1,2,3,40" "" 2 ["RAMP", "1", "2", "3", "40"] [])
      = .ok 40 :=
  ⟨(c2_duration_amended "D,7" "" "1" "2" "3" "7" 0 7 rfl).1 (by decide),
   (c2_duration_amended "D,0" "" "1" "2" "3" "0" 1 0 rfl).2.1 rfl,
   (c2_duration_amended "RAMP,1,2,3,40" "" "1" "2" "3" "40" 2 40 rfl).2.2.1 (by decide)⟩

/-- C6: for every loop command `L,k` with `k ≥ 1` whose children evaluate,
in order, to total duration `d ≥ 0`, the Duration Evaluator returns exactly
`k * d`. -/
theorem c6_loop_duration (line eLine cntStr : String) (lineNo : Nat) (restF : List String)
    (subs : List Command) (k d : Int)
    (hk : atoi cntStr = some k) (hk1 : 1 ≤ k)
    (hd : durationList subs = .ok d) (_hd0 : 0 ≤ d) :
    Command.duration (Command.mk line eLine lineNo ("L" :: cntStr :: restF) subs)
      = .ok (k * d) := by
  have hk0 : k ≠ 0 := by omega
  simp [Command.duration, parseCount, parseNumber, hk, hk0, hd, Int.mul_comm d k]

/-- C6 witness: `L,2` over a body `D,3` evaluates to 6. -/
theorem c6_loop_duration_witness :
    Command.duration (Command.mk "L,2" "E" 0 ["L", "2"]
      [Command.mk "D,3" "" 1 ["D", "3"] []]) = .ok 6 :=
  c6_loop_duration "L,2" "E" "2" 0 [] [Command.mk "D,3" "" 1 ["D", "3"] []] 2 3
    rfl (by decide) rfl (by decide)

/-- C5 counterexample: the claim says an input containing `L,0` terminates
fatally during parsing, before any semantic pass; but the parser never reads
the loop count, so the two-line program `L,0` / `E` parses successfully. -/
theorem c5_counterexample :
    parseProgram ["L,0", "E"] = .ok [Command.mk "L,0" "E" 0 ["L", "0"] []] := rfl

/-- C5 (corrected): `L,0` parses without error; the zero count becomes fatal
only when the Duration Evaluator is invoked on the loop (for any children),
for example during time resolution or annotation, with the error carrying
the stored 0-based line index; and a pruned `CLUBS` block containing `L,0`
never triggers the error at all. -/
theorem c5_zero_loop_amended (line eLine : String) (lineNo : Nat) (subs : List Command) :
    parseProgram ["L,0", "E"] = .ok [Command.mk "L,0" "E" 0 ["L", "0"] []] ∧
    Command.duration (Command.mk line eLine lineNo ["L", "0"] subs)
      = .error (.zeroCount lineNo) ∧
    resolveTime [Command.mk "L,0" "E" 0 ["L", "0"] []] = .error (.zeroCount 0) ∧
    annotateTimes [Command.mk "L,0" "E" 0 ["L", "0"] []] = .error (.zeroCount 0) ∧
    specializeForClub [Command.mk "CLUBS,2" "E" 0 ["CLUBS", "2"]
        [Command.mk "L,0" "E" 1 ["L", "0"] []]] 1 = .ok [] := by
  have hpc : parseCount "0" lineNo = .error (.zeroCount lineNo) := rfl
  refine ⟨rfl, ?_, rfl, rfl, ?_⟩
  · simp [Command.duration, hpc]
  · simp only [specializeForClub]; rfl

/-- C3 helper: scanning an id list whose entries all parse to nonzero
integers never produces an error. -/
theorem findClub_no_error (lineNo : Nat) (club : Int) :
    ∀ fs : List String, (∀ f ∈ fs, ∃ n : Int, atoi f = some n ∧ n ≠ 0) →
      ∀ e : Err, findClub fs lineNo club ≠ .error e := by
  intro fs
  induction fs with
  | nil => intro _ e h2; simp [findClub] at h2
  | cons x xs ih =>
    intro h e h2
    obtain ⟨n, hx, hn⟩ := h x (List.mem_cons_self x xs)
    simp [findClub, parseCount, parseNumber, hx, hn] at h2
    split at h2
    · exact Except.noConfusion h2
    · exact ih (fun f hf => h f (List.mem_cons_of_mem x hf)) e h2

/-- C3 counterexample: the claim says a `CLUBS` id list entry may be any
integer including 0 without a fatal error; but each entry goes through
`parseCount`, so the all-numeric list `CLUBS,0` is fatal with the
count-cannot-be-zero error. -/
theorem c3_counterexample :
    specializeForClub [Command.mk "CLUBS,0" "E" 4 ["CLUBS", "0"] []] 1
      = .error (.zeroCount 4) := by
  simp only [specializeForClub]; rfl

/-- C3 (corrected): `CLUBS` id list entries are parsed with the same
nonzero check as the loop count of `L`: if every listed id parses to a nonzero
integer the scan never triggers a fatal error, but an id `0` reached during
the scan is fatal with the count-cannot-be-zero error. -/
theorem c3_clubs_ids_amended (fs : List String) (lineNo : Nat) (club : Int)
    (h : ∀ f ∈ fs, ∃ n : Int, atoi f = some n ∧ n ≠ 0) :
    (∀ e : Err, findClub fs lineNo club ≠ .error e) ∧
    (∀ rest : List String, findClub ("0" :: rest) lineNo club
        = .error (.zeroCount lineNo)) := by
  refine ⟨findClub_no_error lineNo club fs h, ?_⟩
  intro rest
  have hpc : parseCount "0" lineNo = .error (.zeroCount lineNo) := rfl
  simp [findClub, hpc]

/-- C3 witness: concrete instances of the amended statement. -/
theorem c3_witness :
    findClub ["1", "2"] 5 2 ≠ .error (.zeroCount 5) ∧
    findClub ["0", "7"] 5 2 = .error (.zeroCount 5) := by
  have hids : ∀ f ∈ ["1", "2"], ∃ n : Int, atoi f = some n ∧ n ≠ 0 := by
    intro f hf
    rcases List.mem_cons.mp hf with h1 | h1
    · subst h1; exact ⟨1, rfl, by decide⟩
    · rcases List.mem_cons.mp h1 with h2 | h2
      · subst h2; exact ⟨2, rfl, by decide⟩
      · simp at h2
  exact ⟨(c3_clubs_ids_amended ["1", "2"] 5 2 hids).1 (.zeroCount 5),
         (c3_clubs_ids_amended ["1", "2"] 5 2 hids).2 ["7"]⟩

/-- C1 counterexample: the claim says a `TIME,target` with target equal to
the current time, including target 0 at time 0, is dropped producing no
command, and that the target sequence `[0,150,150,300]` yields delays 150
then 150; but the target is read through `parseCount`, so `TIME,0` is fatal
("count cannot be zero") and the example sequence aborts on its first
element instead of producing delays. -/
theorem c1_counterexample :
    resolveTime [mkTimeCmd "0" 0] = .error (.zeroCount 0) ∧
    resolveTime [mkTimeCmd "0" 0, mkTimeCmd "150" 1, mkTimeCmd "150" 2, mkTimeCmd "300" 3]
      = .error (.zeroCount 0) ∧
    resolveTime [mkTimeCmd "0" 0] ≠ .ok [] := by
  refine ⟨rfl, rfl, ?_⟩
  intro h
  rw [show resolveTime [mkTimeCmd "0" 0] = .error (.zeroCount 0) from rfl] at h
  exact Except.noConfusion h

/-- C1 (corrected): walking left to right with a running time counter from
0, a `TIME,target` whose target parses to 0 is fatal (count cannot be
zero); a nonzero target smaller than the current time is fatal (cannot go
back in time, reporting the current time and the line number); a nonzero
target equal to the current time is dropped entirely; a nonzero target
greater than the current time is replaced by a synthesized `D,(target-time)`
delay command and the counter becomes the target; every other command
passes through unchanged and advances the counter by its duration.  The
target sequence `[150,150,300]` yields delay commands for 150 then 150
(the duplicate producing no command), and `[100,50]` is fatal. -/
theorem c1_time_resolver_amended
    (line eLine tstr : String) (lineNo : Nat) (restF : List String)
    (subs cs : List Command) (time target : Int)
    (hp : atoi tstr = some target) :
    (target = 0 →
      resolveTimeAux (Command.mk line eLine lineNo ("TIME" :: tstr :: restF) subs :: cs) time
        = .error (.zeroCount lineNo)) ∧
    (target ≠ 0 → target < time →
      resolveTimeAux (Command.mk line eLine lineNo ("TIME" :: tstr :: restF) subs :: cs) time
        = .error (.cannotGoBack time lineNo)) ∧
    (target ≠ 0 → target = time →
      resolveTimeAux (Command.mk line eLine lineNo ("TIME" :: tstr :: restF) subs :: cs) time
        = resolveTimeAux cs time) ∧
    (target ≠ 0 → time < target →
      resolveTimeAux (Command.mk line eLine lineNo ("TIME" :: tstr :: restF) subs :: cs) time
        = (resolveTimeAux cs target).map
            (fun rest => delayCmd (target - time) lineNo :: rest)) ∧
    (∀ (c2 : Command) (d : Int), c2.fields.headD "" ≠ "TIME" → Command.duration c2 = .ok d →
      resolveTimeAux (c2 :: cs) time
        = (resolveTimeAux cs (time + d)).map (fun rest => c2 :: rest)) ∧
    (resolveTime [mkTimeCmd "150" 0, mkTimeCmd "150" 1, mkTimeCmd "300" 2]
        = .ok [delayCmd 150 0, delayCmd 150 2]) ∧
    (resolveTime [mkTimeCmd "100" 0, mkTimeCmd "50" 1] = .error (.cannotGoBack 100 1)) := by
  refine ⟨?_, ?_, ?_, ?_, ?_, rfl, rfl⟩
  · intro h0
    simp [resolveTimeAux, Command.fields, Command.lineNo, parseCount, parseNumber, hp, h0]
  · intro h0 hlt
    have hne : ¬ target = time := by omega
    simp [resolveTimeAux, Command.fields, Command.lineNo, parseCount, parseNumber, hp, h0,
      hlt, hne]
  · intro h0 heq
    subst heq
    simp [resolveTimeAux, Command.fields, Command.lineNo, parseCount, parseNumber, hp, h0]
  · intro h0 hlt
    have hnlt : ¬ target < time := by omega
    have hne : ¬ target = time := by omega
    cases hres : resolveTimeAux cs target <;>
      simp [resolveTimeAux, Command.fields, Command.lineNo, parseCount, parseNumber, hp, h0,
        hnlt, hne, hres, delayCmd, Except.map]
  · intro c2 d hop hdur
    have hop2 : c2.fields.head?.getD "" ≠ "TIME" := by simpa using hop
    cases hres : resolveTimeAux cs (time + d) <;>
      simp [resolveTimeAux, hop2, hdur, hres, Except.map]

/-- C1 witness: concrete instances of the amended statement (a jump from 0
to 150, and a dropped jump at an already-reached nonzero time 40). -/
theorem c1_witness :
    resolveTimeAux [mkTimeCmd "150" 3] 0
      = (resolveTimeAux ([] : List Command) 150).map
          (fun rest => delayCmd 150 3 :: rest) ∧
    resolveTimeAux [mkTimeCmd "40" 4] 40 = resolveTimeAux ([] : List Command) 40 := by
  constructor
  · have h := (c1_time_resolver_amended "TIME,150" "" "150" 3 [] [] [] 0 150 rfl).2.2.2.1
      (by decide) (by decide)
    simpa [mkTimeCmd] using h
  · have h := (c1_time_resolver_amended "TIME,40" "" "40" 4 [] [] [] 40 40 rfl).2.2.1
      (by decide) rfl
    simpa [mkTimeCmd] using h

/-- C10: an input line that is empty or whose text starts with `;` splits
to the single empty field, so the parser builds a leaf command with empty
opcode; the Duration Evaluator returns 0 for it; specialization, color
resolution, label resolution, and time resolution pass it through
unchanged; and the annotator reprints its verbatim text with no
cumulative-time comment after it. -/
theorem c10_comment_lines (s : String) (n : Nat)
    (hs : s.data = [] ∨ ∃ t, s.data = ';' :: t) :
    splitLine s = [""] ∧
    (∀ (lines : List String) (fuel i : Nat) (hi : i < lines.length),
      lines.get ⟨i, hi⟩ = s →
      parseCommandF (fuel + 1) lines i (splitLine s)
        = .ok (Command.mk s "" i [""] [], i + 1)) ∧
    Command.duration (Command.mk s "" n [""] []) = .ok 0 ∧
    (∀ (cs : List Command) (club : Int),
      specializeForClub (Command.mk s "" n [""] [] :: cs) club
        = (specializeForClub cs club).map (fun r => Command.mk s "" n [""] [] :: r)) ∧
    (∀ (cs : List Command) (colors : List (String × Color)) (ad : Bool),
      resolveColorInCommands (Command.mk s "" n [""] [] :: cs) colors ad
        = (resolveColorInCommands cs colors ad).map
            (fun pr => (Command.mk s "" n [""] [] :: pr.1, pr.2))) ∧
    (∀ (cs : List Command) (labels : List (String × Label)),
      resolveLabels (Command.mk s "" n [""] [] :: cs) labels
        = (resolveLabels cs labels).map (fun r => Command.mk s "" n [""] [] :: r)) ∧
    (∀ (cs : List Command) (time : Int),
      resolveTimeAux (Command.mk s "" n [""] [] :: cs) time
        = (resolveTimeAux cs time).map (fun r => Command.mk s "" n [""] [] :: r)) ∧
    (∀ (cs : List Command) (time : Int),
      annotateTimesAux (Command.mk s "" n [""] [] :: cs) time
        = (annotateTimesAux cs time).map (fun r => s :: r)) := by
  have hempty : trimCut (stripComment s).data = [] := by
    rcases hs with h | ⟨t, h⟩
    · simp [stripComment, h, trimCut]
    · simp [stripComment, h, trimCut, List.takeWhile_cons]
  have hsplit : splitLine s = [""] := by
    simp [splitLine, hempty, splitComma]
    rfl
  have hdur : Command.duration (Command.mk s "" n [""] []) = .ok 0 := rfl
  have hprint : Command.print (Command.mk s "" n [""] []) = [s] := rfl
  refine ⟨hsplit, ?_, hdur, ?_, ?_, ?_, ?_, ?_⟩
  · intro lines fuel i hi hline
    simp [parseCommandF, hsplit, hi, isBlockCommand]
    exact hline
  · intro cs club
    cases hres : specializeForClub cs club <;>
      simp only [specializeForClub] <;>
      simp [hres, Except.map, isBlockCommand]
  · intro cs colors ad
    cases hres : resolveColorInCommands cs colors ad <;>
      simp only [resolveColorInCommands] <;>
      simp [hres, Except.map, isBlockCommand]
  · intro cs labels
    cases hres : resolveLabels cs labels <;>
      simp only [resolveLabels] <;>
      simp [hres, Except.map, isBlockCommand]
  · intro cs time
    cases hres : resolveTimeAux cs time <;>
      simp [resolveTimeAux, Command.fields, Command.lineNo, hdur, hres, Except.map]
  · intro cs time
    cases hres : annotateTimesAux cs time <;>
      simp [annotateTimesAux, hdur, hprint, hres, Except.map]

/-- C10 witness: the comment line `"; hello"` at line index 0 of a one-line
input, checked through the parser, the Duration Evaluator, and the time
resolver. -/
theorem c10_witness :
    splitLine "; hello" = [""] ∧
    parseCommandF 7 ["; hello"] 0 (splitLine "; hello")
      = .ok (Command.mk "; hello" "" 0 [""] [], 1) ∧
    Command.duration (Command.mk "; hello" "" 0 [""] []) = .ok 0 ∧
    resolveTimeAux [Command.mk "; hello" "" 0 [""] []] 9
      = .ok [Command.mk "; hello" "" 0 [""] []] := by
  have hs : ("; hello").data = [] ∨ ∃ t, ("; hello").data = ';' :: t :=
    Or.inr ⟨" hello".data, rfl⟩
  refine ⟨(c10_comment_lines "; hello" 0 hs).1, ?_, (c10_comment_lines "; hello" 0 hs).2.2.1, ?_⟩
  · exact (c10_comment_lines "; hello" 0 hs).2.1 ["; hello"] 6 0 (by decide) rfl
  · have h := (c10_comment_lines "; hello" 0 hs).2.2.2.2.2.2.1 [] 9
    simpa [resolveTimeAux] using h

/-- C8 helper: a program with no `CLUBS` node at any depth specializes to
itself. -/
theorem specialize_clubsFree_id :
    ∀ (p : List Command) (club : Int), clubsFreeL p = true →
      specializeForClub p club = .ok p := by
  intro p club
  induction p, club using specializeForClub.induct with
  | case1 club =>
    intro _
    simp [specializeForClub]
  | case2 l e n f s cs club hf err hfind =>
    intro hfree
    simp [clubsFreeL] at hfree
    exact absurd (by simpa using hf) hfree.1.1
  | case3 l e n f s cs club hf err hs hfind ih =>
    intro hfree
    simp [clubsFreeL] at hfree
    exact absurd (by simpa using hf) hfree.1.1
  | case4 l e n f s cs club hf rest1 hs err hcs hfind ih1 ih2 =>
    intro hfree
    simp [clubsFreeL] at hfree
    exact absurd (by simpa using hf) hfree.1.1
  | case5 l e n f s cs club hf rest1 hs rest2 hcs hfind ih1 ih2 =>
    intro hfree
    simp [clubsFreeL] at hfree
    exact absurd (by simpa using hf) hfree.1.1
  | case6 l e n f s cs club hf found hfind hnot ih =>
    intro hfree
    simp [clubsFreeL] at hfree
    exact absurd (by simpa using hf) hfree.1.1
  | case7 l e n f s cs club hf hblk err hs ih =>
    intro hfree
    simp [clubsFreeL] at hfree
    rw [ih hfree.1.2] at hs
    exact Except.noConfusion hs
  | case8 l e n f s cs club hf hblk rest1 hs err hcs ih1 ih2 =>
    intro hfree
    simp [clubsFreeL] at hfree
    rw [ih2 hfree.2] at hcs
    exact Except.noConfusion hcs
  | case9 l e n f s cs club hf hblk rest1 hs rest2 hcs ih1 ih2 =>
    intro hfree
    simp [clubsFreeL] at hfree
    rw [ih1 hfree.1.2] at hs
    rw [ih2 hfree.2] at hcs
    injection hs with hs2
    injection hcs with hcs2
    subst hs2
    subst hcs2
    have hf2 : ¬ f.head?.getD "" = "CLUBS" := by simpa using hf
    have hblk2 : isBlockCommand (f.head?.getD "") = true := by simpa using hblk
    simp [specializeForClub, hf2, hblk2, ih1 hfree.1.2, ih2 hfree.2]
  | case10 l e n f s cs club hf hblk err hcs ih =>
    intro hfree
    simp [clubsFreeL] at hfree
    rw [ih hfree.2] at hcs
    exact Except.noConfusion hcs
  | case11 l e n f s cs club hf hblk rest hcs ih =>
    intro hfree
    simp [clubsFreeL] at hfree
    rw [ih hfree.2] at hcs
    injection hcs with hcs2
    subst hcs2
    have hf2 : ¬ f.head?.getD "" = "CLUBS" := by simpa using hf
    have hblk2 : ¬ isBlockCommand (f.head?.getD "") = true := by simpa using hblk
    simp [specializeForClub, hf2, hblk2, ih hfree.2]

/-- C8 helper: specialization distributes over list concatenation (the Go
loop processes elements independently, in order). -/
theorem specialize_append :
    ∀ (a : List Command) (club : Int) (b : List Command),
      specializeForClub (a ++ b) club
        = match specializeForClub a club with
          | .error e => .error e
          | .ok a2 =>
            match specializeForClub b club with
            | .error e => .error e
            | .ok b2 => .ok (a2 ++ b2) := by
  intro a club
  induction a, club using specializeForClub.induct with
  | case1 club =>
    intro b
    simp only [List.nil_append, specializeForClub]
    cases hb : specializeForClub b club <;> simp [hb]
  | case2 l e n f s cs club hf err hfind =>
    intro b
    have hf2 : f.head?.getD "" = "CLUBS" := by simpa using hf
    have hfind2 : findClub f.tail n club = Except.error err := by simpa using hfind
    simp [specializeForClub, hf2, hfind2]
  | case3 l e n f s cs club hf err hs hfind ih =>
    intro b
    have hf2 : f.head?.getD "" = "CLUBS" := by simpa using hf
    have hfind2 : findClub f.tail n club = Except.ok true := by simpa using hfind
    simp [specializeForClub, hf2, hfind2, hs]
  | case4 l e n f s cs club hf rest1 hs err hcs hfind ih1 ih2 =>
    intro b
    have hf2 : f.head?.getD "" = "CLUBS" := by simpa using hf
    have hfind2 : findClub f.tail n club = Except.ok true := by simpa using hfind
    simp [specializeForClub, hf2, hfind2, hs, hcs, ih2]
  | case5 l e n f s cs club hf rest1 hs rest2 hcs hfind ih1 ih2 =>
    intro b
    have hf2 : f.head?.getD "" = "CLUBS" := by simpa using hf
    have hfind2 : findClub f.tail n club = Except.ok true := by simpa using hfind
    cases hb : specializeForClub b club <;>
      simp [specializeForClub, hf2, hfind2, hs, hcs, ih2, hb, List.append_assoc]
  | case6 l e n f s cs club hf found hfind hnot ih =>
    intro b
    have hf2 : f.head?.getD "" = "CLUBS" := by simpa using hf
    have hfind2 : findClub f.tail n club = Except.ok found := by simpa using hfind
    cases hcs2 : specializeForClub cs club <;> cases hb : specializeForClub b club <;>
      simp [specializeForClub, hf2, hfind2, hnot, ih, hcs2, hb]
  | case7 l e n f s cs club hf hblk err hs ih =>
    intro b
    have hf2 : ¬ f.head?.getD "" = "CLUBS" := by simpa using hf
    have hblk2 : isBlockCommand (f.head?.getD "") = true := by simpa using hblk
    simp [specializeForClub, hf2, hblk2, hs]
  | case8 l e n f s cs club hf hblk rest1 hs err hcs ih1 ih2 =>
    intro b
    have hf2 : ¬ f.head?.getD "" = "CLUBS" := by simpa using hf
    have hblk2 : isBlockCommand (f.head?.getD "") = true := by simpa using hblk
    simp [specializeForClub, hf2, hblk2, hs, hcs, ih2]
  | case9 l e n f s cs club hf hblk rest1 hs rest2 hcs ih1 ih2 =>
    intro b
    have hf2 : ¬ f.head?.getD "" = "CLUBS" := by simpa using hf
    have hblk2 : isBlockCommand (f.head?.getD "") = true := by simpa using hblk
    cases hb : specializeForClub b club <;>
      simp [specializeForClub, hf2, hblk2, hs, hcs, ih2, hb]
  | case10 l e n f s cs club hf hblk err hcs ih =>
    intro b
    have hf2 : ¬ f.head?.getD "" = "CLUBS" := by simpa using hf
    have hblk2 : ¬ isBlockCommand (f.head?.getD "") = true := by simpa using hblk
    simp [specializeForClub, hf2, hblk2, hcs, ih]
  | case11 l e n f s cs club hf hblk rest hcs ih =>
    intro b
    have hf2 : ¬ f.head?.getD "" = "CLUBS" := by simpa using hf
    have hblk2 : ¬ isBlockCommand (f.head?.getD "") = true := by simpa using hblk
    cases hb : specializeForClub b club <;>
      simp [specializeForClub, hf2, hblk2, hcs, ih, hb]

/-- C8 helper: the output of a successful specialization is a fixed point of
specialization for the same club. -/
theorem specialize_idem_aux :
    ∀ (p : List Command) (club : Int) (q : List Command),
      specializeForClub p club = .ok q → specializeForClub q club = .ok q := by
  intro p club
  induction p, club using specializeForClub.induct with
  | case1 club =>
    intro q h
    simp only [specializeForClub] at h
    injection h with h2
    subst h2
    simp [specializeForClub]
  | case2 l e n f s cs club hf err hfind =>
    intro q h
    have hf2 : f.head?.getD "" = "CLUBS" := by simpa using hf
    have hfind2 : findClub f.tail n club = Except.error err := by simpa using hfind
    simp [specializeForClub, hf2, hfind2] at h
  | case3 l e n f s cs club hf err hs hfind ih =>
    intro q h
    have hf2 : f.head?.getD "" = "CLUBS" := by simpa using hf
    have hfind2 : findClub f.tail n club = Except.ok true := by simpa using hfind
    simp [specializeForClub, hf2, hfind2, hs] at h
  | case4 l e n f s cs club hf rest1 hs err hcs hfind ih1 ih2 =>
    intro q h
    have hf2 : f.head?.getD "" = "CLUBS" := by simpa using hf
    have hfind2 : findClub f.tail n club = Except.ok true := by simpa using hfind
    simp [specializeForClub, hf2, hfind2, hs, hcs] at h
  | case5 l e n f s cs club hf rest1 hs rest2 hcs hfind ih1 ih2 =>
    intro q h
    have hf2 : f.head?.getD "" = "CLUBS" := by simpa using hf
    have hfind2 : findClub f.tail n club = Except.ok true := by simpa using hfind
    simp [specializeForClub, hf2, hfind2, hs, hcs] at h
    subst h
    rw [specialize_append rest1 club rest2, ih1 rest1 hs, ih2 rest2 hcs]
  | case6 l e n f s cs club hf found hfind hnot ih =>
    intro q h
    have hf2 : f.head?.getD "" = "CLUBS" := by simpa using hf
    have hfind2 : findClub f.tail n club = Except.ok found := by simpa using hfind
    simp [specializeForClub, hf2, hfind2, hnot] at h
    exact ih q h
  | case7 l e n f s cs club hf hblk err hs ih =>
    intro q h
    have hf2 : ¬ f.head?.getD "" = "CLUBS" := by simpa using hf
    have hblk2 : isBlockCommand (f.head?.getD "") = true := by simpa using hblk
    simp [specializeForClub, hf2, hblk2, hs] at h
  | case8 l e n f s cs club hf hblk rest1 hs err hcs ih1 ih2 =>
    intro q h
    have hf2 : ¬ f.head?.getD "" = "CLUBS" := by simpa using hf
    have hblk2 : isBlockCommand (f.head?.getD "") = true := by simpa using hblk
    simp [specializeForClub, hf2, hblk2, hs, hcs] at h
  | case9 l e n f s cs club hf hblk rest1 hs rest2 hcs ih1 ih2 =>
    intro q h
    have hf2 : ¬ f.head?.getD "" = "CLUBS" := by simpa using hf
    have hblk2 : isBlockCommand (f.head?.getD "") = true := by simpa using hblk
    simp [specializeForClub, hf2, hblk2, hs, hcs] at h
    subst h
    simp [specializeForClub, hf2, hblk2, ih1 rest1 hs, ih2 rest2 hcs]
  | case10 l e n f s cs club hf hblk err hcs ih =>
    intro q h
    have hf2 : ¬ f.head?.getD "" = "CLUBS" := by simpa using hf
    have hblk2 : ¬ isBlockCommand (f.head?.getD "") = true := by simpa using hblk
    simp [specializeForClub, hf2, hblk2, hcs] at h
  | case11 l e n f s cs club hf hblk rest hcs ih =>
    intro q h
    have hf2 : ¬ f.head?.getD "" = "CLUBS" := by simpa using hf
    have hblk2 : ¬ isBlockCommand (f.head?.getD "") = true := by simpa using hblk
    simp [specializeForClub, hf2, hblk2, hcs] at h
    subst h
    simp [specializeForClub, hf2, hblk2, ih rest hcs]

/-- C8: a Program with no `CLUBS` nodes at any depth specializes to itself
for any club id, and specializing twice for a club id equals specializing
once. -/
theorem c8_specialize_idempotent (p q : List Command) (club : Int) :
    (clubsFreeL p = true → specializeForClub p club = .ok p) ∧
    (specializeForClub p club = .ok q → specializeForClub q club = .ok q) :=
  ⟨specialize_clubsFree_id p club, specialize_idem_aux p club q⟩

/-- C8 witness: a `CLUBS`-free program is fixed, and the result of
specializing a `CLUBS` block is itself fixed. -/
theorem c8_witness :
    specializeForClub [Command.mk "D,5" "" 0 ["D", "5"] []] 3
        = .ok [Command.mk "D,5" "" 0 ["D", "5"] []] ∧
    specializeForClub [Command.mk "D,5" "" 1 ["D", "5"] []] 3
        = .ok [Command.mk "D,5" "" 1 ["D", "5"] []] :=
  ⟨(c8_specialize_idempotent [Command.mk "D,5" "" 0 ["D", "5"] []]
      [Command.mk "D,5" "" 0 ["D", "5"] []] 3).1 (by simp only [clubsFreeL]; rfl),
   (c8_specialize_idempotent
      [Command.mk "CLUBS,3" "E" 0 ["CLUBS", "3"] [Command.mk "D,5" "" 1 ["D", "5"] []]]
      [Command.mk "D,5" "" 1 ["D", "5"] []] 3).2
      (by simp only [specializeForClub]; rfl)⟩

/-- C4 helper: the parser functions never produce the `E without L` error;
it is constructed only by `parseProgram` itself. -/
theorem parse_no_eWithoutL (lines : List String) :
    ∀ fuel : Nat,
      (∀ i m, parseLinesF fuel lines i ≠ .error (.eWithoutL m)) ∧
      (∀ i fields m, parseCommandF fuel lines i fields ≠ .error (.eWithoutL m)) := by
  intro fuel
  induction fuel with
  | zero =>
    constructor
    · intro i m h
      simp [parseLinesF] at h
    · intro i fields m h
      simp [parseCommandF] at h
  | succ n ih =>
    obtain ⟨ihL, ihC⟩ := ih
    constructor
    · intro i m h
      simp only [parseLinesF] at h
      by_cases hlen : i < lines.length
      · rw [dif_pos hlen] at h
        by_cases hE : (splitLine (lines.get ⟨i, hlen⟩)).headD "" = "E"
        · rw [if_pos hE] at h
          exact Except.noConfusion h
        · rw [if_neg hE] at h
          cases hc : parseCommandF n lines i (splitLine (lines.get ⟨i, hlen⟩)) with
          | error e =>
            rw [hc] at h
            simp at h
            subst h
            exact absurd hc (ihC _ _ _)
          | ok pr =>
            obtain ⟨c, newNo⟩ := pr
            rw [hc] at h
            simp only [] at h
            cases hr : parseLinesF n lines newNo with
            | error e2 =>
              rw [hr] at h
              simp at h
              subst h
              exact absurd hr (ihL _ _)
            | ok pr2 =>
              obtain ⟨cs2, e2⟩ := pr2
              rw [hr] at h
              simp at h
      · rw [dif_neg hlen] at h
        exact Except.noConfusion h
    · intro i fields m h
      simp only [parseCommandF] at h
      by_cases hlen : i < lines.length
      · rw [dif_pos hlen] at h
        by_cases hE : fields.headD "" = "E"
        · rw [if_pos hE] at h
          simp at h
        · rw [if_neg hE] at h
          by_cases hblk : isBlockCommand (fields.headD "")
          · rw [if_pos hblk] at h
            cases hr : parseLinesF n lines (i + 1) with
            | error e =>
              rw [hr] at h
              simp at h
              subst h
              exact absurd hr (ihL _ _)
            | ok pr =>
              obtain ⟨subs, newNo⟩ := pr
              rw [hr] at h
              simp only [] at h
              by_cases h2 : newNo < lines.length
              · rw [dif_pos h2] at h
                exact Except.noConfusion h
              · rw [dif_neg h2] at h
                simp at h
          · rw [if_neg hblk] at h
            exact Except.noConfusion h
      · rw [dif_neg hlen] at h
        simp at h

/-- C4 helper: when `parseLines` returns normally, the returned line index
is either past the end of input or points at a line whose first field is
`E`. -/
theorem parseLinesF_stop (lines : List String) :
    ∀ (fuel i : Nat) (cs : List Command) (e : Nat),
      parseLinesF fuel lines i = .ok (cs, e) →
      lines.length ≤ e ∨
        (e < lines.length ∧ (splitLine (lines.getD e "")).headD "" = "E") := by
  intro fuel
  induction fuel with
  | zero =>
    intro i cs e h
    simp [parseLinesF] at h
  | succ n ih =>
    intro i cs e h
    simp only [parseLinesF] at h
    by_cases hlen : i < lines.length
    · rw [dif_pos hlen] at h
      by_cases hE : (splitLine (lines.get ⟨i, hlen⟩)).headD "" = "E"
      · rw [if_pos hE] at h
        injection h with h2
        injection h2 with h3 h4
        subst h4
        refine Or.inr ⟨hlen, ?_⟩
        have hg : lines.getD i "" = lines.get ⟨i, hlen⟩ := by
          simp [List.getD_eq_getElem?_getD, List.getElem?_eq_getElem, hlen]
        rwa [hg]
      · rw [if_neg hE] at h
        cases hc : parseCommandF n lines i (splitLine (lines.get ⟨i, hlen⟩)) with
        | error e2 =>
          rw [hc] at h
          exact Except.noConfusion h
        | ok pr =>
          obtain ⟨c, newNo⟩ := pr
          rw [hc] at h
          simp only [] at h
          cases hr : parseLinesF n lines newNo with
          | error e2 =>
            rw [hr] at h
            exact Except.noConfusion h
          | ok pr2 =>
            obtain ⟨cs2, e2⟩ := pr2
            rw [hr] at h
            simp only [] at h
            injection h with h2
            injection h2 with h3 h4
            subst h4
            exact ih newNo cs2 e2 hr
    · rw [dif_neg hlen] at h
      injection h with h2
      injection h2 with h3 h4
      subst h4
      exact Or.inl (by omega)

/-- C4 helper: every successfully parsed command stores the 0-based index of
the line it was built from. -/
theorem parseCommandF_lineNo :
    ∀ (fuel : Nat) (lines2 : List String) (i : Nat) (fields : List String)
      (c : Command) (j : Nat),
      parseCommandF fuel lines2 i fields = .ok (c, j) → c.lineNo = i := by
  intro fuel lines2 i fields c j h
  match fuel with
  | 0 => simp [parseCommandF] at h
  | n + 1 =>
    simp only [parseCommandF] at h
    by_cases hlen : i < lines2.length
    · rw [dif_pos hlen] at h
      by_cases hE : fields.headD "" = "E"
      · rw [if_pos hE] at h
        exact Except.noConfusion h
      · rw [if_neg hE] at h
        by_cases hblk : isBlockCommand (fields.headD "") = true
        · rw [if_pos hblk] at h
          cases hr : parseLinesF n lines2 (i + 1) with
          | error e =>
            rw [hr] at h
            exact Except.noConfusion h
          | ok pr =>
            obtain ⟨subs, newNo⟩ := pr
            rw [hr] at h
            simp only [] at h
            by_cases h2 : newNo < lines2.length
            · rw [dif_pos h2] at h
              injection h with hp
              injection hp with hc hj
              subst hc
              simp [Command.lineNo]
            · rw [dif_neg h2] at h
              exact Except.noConfusion h
        · rw [if_neg hblk] at h
          injection h with hp
          injection hp with hc hj
          subst hc
          simp [Command.lineNo]
    · rw [dif_neg hlen] at h
      exact Except.noConfusion h

/-- C4 counterexample: the claim says a fatal error triggered by line `k`
(1-based) reports line number `k`; but for the stray-`E` input whose only
line is line 1, the reported number is 0 (the 0-based index). -/
theorem c4_counterexample :
    parseProgram ["E"] = .error (.eWithoutL 0) ∧
    parseProgram ["E"] ≠ .error (.eWithoutL 1) := by
  refine ⟨rfl, ?_⟩
  intro h
  rw [show parseProgram ["E"] = .error (.eWithoutL 0) from rfl] at h
  injection h with h2
  exact absurd h2 (by decide)

/-- C4 (corrected): fatal error messages report the 0-based index of the
offending line, not its 1-based position: the `E without L` error names
exactly the 0-based index of the stray `E` line, every parsed command
stores the 0-based index of its source line (later passes report that
stored number), and the one-line input `E` — line 1 in 1-based counting —
is reported as line 0. -/
theorem c4_line_numbers_amended (lines : List String) (k : Nat)
    (h : parseProgram lines = .error (.eWithoutL k)) :
    (k < lines.length ∧ (splitLine (lines.getD k "")).headD "" = "E") ∧
    (∀ (lines2 : List String) (fuel i : Nat) (fields : List String)
       (c : Command) (j : Nat),
      parseCommandF fuel lines2 i fields = .ok (c, j) → c.lineNo = i) ∧
    parseProgram ["E"] = .error (.eWithoutL 0) := by
  refine ⟨?_, fun lines2 fuel i fields c j hp =>
    parseCommandF_lineNo fuel lines2 i fields c j hp, rfl⟩
  unfold parseProgram at h
  cases hp : parseLinesF (2 * lines.length + 2) lines 0 with
  | error e =>
    rw [hp] at h
    simp only [] at h
    injection h with h2
    subst h2
    exact absurd hp ((parse_no_eWithoutL lines _).1 0 k)
  | ok pr =>
    obtain ⟨cs, e⟩ := pr
    rw [hp] at h
    simp only [] at h
    by_cases hlt : e < lines.length
    · rw [if_pos hlt] at h
      injection h with h2
      injection h2 with h3
      subst h3
      rcases parseLinesF_stop lines _ 0 cs e hp with h4 | ⟨h4, h5⟩
      · omega
      · exact ⟨h4, h5⟩
    · rw [if_neg hlt] at h
      exact Except.noConfusion h

/-- C4 witness: the amended statement applied to the one-line input `E`. -/
theorem c4_witness :
    (0 < (["E"] : List String).length ∧
      (splitLine ((["E"] : List String).getD 0 "")).headD "" = "E") ∧
    parseProgram ["E"] = .error (.eWithoutL 0) :=
  ⟨(c4_line_numbers_amended ["E"] 0 rfl).1, (c4_line_numbers_amended ["E"] 0 rfl).2.2⟩

/-- C7 helper: a slice of the input beginning at a valid index starts with
that line. -/
theorem slice_cons (lines : List String) (i j : Nat) (hi : i < lines.length) (hij : i < j) :
    (lines.drop i).take (j - i)
      = lines.get ⟨i, hi⟩ :: (lines.drop (i + 1)).take (j - (i + 1)) := by
  rw [List.drop_eq_getElem_cons hi]
  have h2 : j - i = (j - (i + 1)) + 1 := by omega
  rw [h2, List.take_succ_cons]
  simp

/-- C7 helper: adjacent slices of the input concatenate. -/
theorem slice_append (lines : List String) (i j e : Nat) (h1 : i ≤ j) (h2 : j ≤ e) :
    (lines.drop i).take (j - i) ++ (lines.drop j).take (e - j)
      = (lines.drop i).take (e - i) := by
  have hd : lines.drop j = (lines.drop i).drop (j - i) := by
    rw [List.drop_drop]
    congr 1
    omega
  have he : e - i = (j - i) + (e - j) := by omega
  rw [he, List.take_add, ← hd]

/-- C7 main lemma: everything the parser consumed is reproduced verbatim by
printing — `parseLines` output prints to the consumed slice of the input,
and a parsed command (children and closing line included) prints to the
slice between its first and past-the-end line indices. -/
theorem parseF_round_trip (lines : List String) :
    ∀ fuel : Nat,
      (∀ i cs e, parseLinesF fuel lines i = .ok (cs, e) →
        i ≤ e ∧ (i ≤ lines.length → e ≤ lines.length) ∧
        printProgram cs = (lines.drop i).take (e - i)) ∧
      (∀ i fields c j, parseCommandF fuel lines i fields = .ok (c, j) →
        i < j ∧ j ≤ lines.length ∧ Command.print c = (lines.drop i).take (j - i)) := by
  intro fuel
  induction fuel with
  | zero =>
    constructor
    · intro i cs e h
      simp [parseLinesF] at h
    · intro i fields c j h
      simp [parseCommandF] at h
  | succ n ih =>
    obtain ⟨ihL, ihC⟩ := ih
    constructor
    · intro i cs e h
      simp only [parseLinesF] at h
      by_cases hlen : i < lines.length
      · rw [dif_pos hlen] at h
        by_cases hE : (splitLine (lines.get ⟨i, hlen⟩)).headD "" = "E"
        · rw [if_pos hE] at h
          injection h with h2
          injection h2 with h3 h4
          subst h3
          subst h4
          exact ⟨Nat.le_refl i, fun hle => hle, by simp [printProgram]⟩
        · rw [if_neg hE] at h
          cases hc : parseCommandF n lines i (splitLine (lines.get ⟨i, hlen⟩)) with
          | error e2 =>
            rw [hc] at h
            exact Except.noConfusion h
          | ok pr =>
            obtain ⟨c, newNo⟩ := pr
            rw [hc] at h
            simp only [] at h
            cases hr : parseLinesF n lines newNo with
            | error e2 =>
              rw [hr] at h
              exact Except.noConfusion h
            | ok pr2 =>
              obtain ⟨cs2, e2⟩ := pr2
              rw [hr] at h
              simp only [] at h
              injection h with h2
              injection h2 with h3 h4
              subst h3
              subst h4
              obtain ⟨hc1, hc2, hc3⟩ := ihC i _ c newNo hc
              obtain ⟨hr1, hr2, hr3⟩ := ihL newNo cs2 e2 hr
              refine ⟨by omega, fun _ => hr2 hc2, ?_⟩
              simp only [printProgram, hc3, hr3, List.append_assoc]
              exact slice_append lines i newNo e2 (by omega) hr1
      · rw [dif_neg hlen] at h
        injection h with h2
        injection h2 with h3 h4
        subst h3
        subst h4
        exact ⟨Nat.le_refl i, fun hle => hle, by simp [printProgram]⟩
    · intro i fields c j h
      simp only [parseCommandF] at h
      by_cases hlen : i < lines.length
      · rw [dif_pos hlen] at h
        by_cases hE : fields.headD "" = "E"
        · rw [if_pos hE] at h
          exact Except.noConfusion h
        · rw [if_neg hE] at h
          by_cases hblk : isBlockCommand (fields.headD "") = true
          · rw [if_pos hblk] at h
            cases hr : parseLinesF n lines (i + 1) with
            | error e2 =>
              rw [hr] at h
              exact Except.noConfusion h
            | ok pr =>
              obtain ⟨subs, newNo⟩ := pr
              rw [hr] at h
              simp only [] at h
              by_cases h2 : newNo < lines.length
              · rw [dif_pos h2] at h
                injection h with hp
                injection hp with hc hj
                subst hc
                subst hj
                obtain ⟨hr1, hr2, hr3⟩ := ihL (i + 1) subs newNo hr
                have hnlen : newNo ≤ lines.length := hr2 (by omega)
                refine ⟨by omega, by omega, ?_⟩
                simp only [Command.print]
                rw [if_pos hblk]
                rw [slice_cons lines i (newNo + 1) hlen (by omega)]
                rw [← slice_append lines (i + 1) newNo (newNo + 1) hr1 (by omega)]
                rw [← hr3]
                rw [slice_cons lines newNo (newNo + 1) h2 (by omega)]
                simp
              · rw [dif_neg h2] at h
                exact Except.noConfusion h
          · rw [if_neg hblk] at h
            injection h with hp
            injection hp with hc hj
            subst hc
            subst hj
            refine ⟨by omega, by omega, ?_⟩
            simp only [Command.print]
            rw [if_neg hblk]
            rw [slice_cons lines i (i + 1) hlen (by omega)]
            simp
      · rw [dif_neg hlen] at h
        exact Except.noConfusion h

/-- C7: for every input whose lines parse without a fatal error, printing
the resulting Program reproduces the original input lines verbatim, in
order, including the closing line of each block after its children. -/
theorem c7_parser_round_trip (lines : List String) (p : List Command)
    (h : parseProgram lines = .ok p) :
    printProgram p = lines := by
  unfold parseProgram at h
  cases hp : parseLinesF (2 * lines.length + 2) lines 0 with
  | error e =>
    rw [hp] at h
    simp only [] at h
    exact Except.noConfusion h
  | ok pr =>
    obtain ⟨cs, e⟩ := pr
    rw [hp] at h
    simp only [] at h
    by_cases hlt : e < lines.length
    · rw [if_pos hlt] at h
      exact Except.noConfusion h
    · rw [if_neg hlt] at h
      injection h with h2
      subst h2
      obtain ⟨h1, h2, h3⟩ := (parseF_round_trip lines _).1 0 cs e hp
      have he : e = lines.length := by
        have := h2 (Nat.zero_le _)
        omega
      rw [he] at h3
      simpa [List.take_length] using h3

/-- C7 witness: round trip of a four-line input with one block. -/
theorem c7_witness :
    printProgram [Command.mk "L,2" "E" 0 ["L", "2"] [Command.mk "D,3" "" 1 ["D", "3"] []],
                  Command.mk "D,5" "" 3 ["D", "5"] []]
      = ["L,2", "D,3", "E", "D,5"] :=
  c7_parser_round_trip ["L,2", "D,3", "E", "D,5"] _ rfl
